import Mathlib

/-!
Shallow embedding of the incident selection and deduplication pipeline of
src/bombers_bot.py.  Pure helpers (tipo_val, classify) are translated as Lean
functions; the stateful `main` is translated as a function from the fetch
outcomes, the state-file contents and an external relevance oracle (Gemini is
an external collaborator) to an exit code, the new state-file contents and the
list of queued messages, each queued message being identified by the processed
record it renders.
-/

namespace BombersBot

/-! ## Python string primitives

`pyLower` models Python str.lower restricted to the alphabet appearing in the
keywords of the classifier (ASCII letters plus the accented vowels and cedilla
used in the Catalan keywords); `pyIn needle hay` models the Python substring
test `needle in hay`. -/

/-- Lowercase one character the way Python str.lower does, restricted to the
characters this program compares (ASCII plus the Catalan accented letters). -/
def charLower (c : Char) : Char :=
  if c = 'À' then 'à' else if c = 'Á' then 'á'
  else if c = 'È' then 'è' else if c = 'É' then 'é'
  else if c = 'Í' then 'í' else if c = 'Ï' then 'ï'
  else if c = 'Ò' then 'ò' else if c = 'Ó' then 'ó'
  else if c = 'Ú' then 'ú' else if c = 'Ü' then 'ü'
  else if c = 'Ç' then 'ç' else c.toLower

/-- Python str.lower on a whole string. -/
def pyLower (s : String) : String := ⟨s.data.map charLower⟩

/-- Does the needle match at the front of the haystack? -/
def matchAt : List Char → List Char → Bool
  | [], _ => true
  | _ :: _, [] => false
  | a :: as, b :: bs => a = b && matchAt as bs

/-- Does the needle occur as a contiguous substring of the haystack? -/
def hasSub (needle : List Char) : List Char → Bool
  | [] => needle.isEmpty
  | c :: t => matchAt needle (c :: t) || hasSub needle t

/-- Python substring containment test `needle in hay`. -/
def pyIn (needle hay : String) : Bool := hasSub needle.toList hay.toList

/-! ## Data model

One fetched feature's attributes, with the field names of the ArcGIS layer as
read by the script (ACT_DAT_ACTUACIO is the epoch-milliseconds timestamp,
written here with an MS suffix).  ESRI_OID is Option Int because the script
reads it with dict.get, which yields None when the field is absent; Python
truthiness then treats both None and 0 as false. -/

structure Attrs where
  ESRI_OID : Option Int
  ACT_NUM_VEH : Int
  COM_FASE : String
  ACT_DAT_ACTUACIO_MS : Int
  TAL_DESC_ALARMA1 : String
  TAL_DESC_ALARMA2 : String
deriving Repr, DecidableEq

/-! ## Classification (tipo_val / classify) -/

/-- The lowered concatenation `d` built inside tipo_val. -/
def alarm_text (a : Attrs) : String :=
  pyLower (a.TAL_DESC_ALARMA1 ++ " " ++ a.TAL_DESC_ALARMA2)

/-- tipo_val from the source: ordered substring rules on the lowered
concatenation of the two alarm descriptions, defaulting to 3 (urban). -/
def tipo_val (a : Attrs) : Int :=
  if pyIn "urbà" (alarm_text a) || pyIn "urbana" (alarm_text a) then 3
  else if pyIn "agrí" (alarm_text a) then 2
  else if pyIn "forestal" (alarm_text a) || pyIn "vegetació" (alarm_text a) then 1
  else 3

/-- classify from the source: the dictionary lookup on tipo_val. -/
def classify (a : Attrs) : String :=
  if tipo_val a = 1 then "forestal"
  else if tipo_val a = 2 then "agrícola"
  else "urbà"

/-! ## Watermark state (load_state / save_state)

The state file is modeled as: absent (none), or present holding a JSON object
whose optional last_id entry is an Option Int. -/

/-- Contents of state.json: absent, or present with an optional last_id. -/
abbrev StateStore := Option (Option Int)

/-- load_state from the source: the saved last_id, with -1 when the file is
absent or the key is missing. -/
def load_state : StateStore → Int
  | none => -1
  | some none => -1
  | some (some v) => v

/-- save_state from the source: overwrite the file with the given last_id. -/
def save_state (last_id : Int) (_st : StateStore) : StateStore :=
  some (some last_id)

/-! ## Fetch (fetch_features)

The two HTTP requests (the main query and the reduced-fields fallback query)
are external; each is modeled by a FetchOutcome.  A 200 response whose body is
valid JSON is okJson; badBody is a 200 response whose body fails to parse,
which in the source raises outside the try block of fetch_features. -/

/-- A parsed ArcGIS JSON response: an optional error envelope (code, message)
and the features list (empty when the key is absent). -/
structure ArcResponse where
  errorEnv : Option (Int × String)
  features : List Attrs
deriving Repr, DecidableEq

/-- Outcome of one HTTP GET against the layer. -/
inductive FetchOutcome where
  | timeout
  | reqError (msg : String)
  | badBody
  | okJson (resp : ArcResponse)
deriving Repr, DecidableEq

/-- The reduced-fields fallback request inside fetch_features: its try block
also covers r.json(), so every requests exception yields [], and its response
features are returned without an error-envelope check. -/
def fallback_fetch : FetchOutcome → List Attrs
  | .timeout => []
  | .reqError _ => []
  | .badBody => []
  | .okJson resp => resp.features

/-- The test the source applies to a requests exception text before retrying
without the location fields. -/
def invalidParams (msg : String) : Bool :=
  pyIn "400" msg && pyIn "Invalid query parameters" msg

/-- fetch_features from the source, as a function of the main request outcome
and the fallback request outcome.  Except.error marks the one uncaught path:
r.json() raising on an unparseable 200 body, outside the try block. -/
def fetch_features (o fb : FetchOutcome) : Except Unit (List Attrs) :=
  match o with
  | .timeout => .ok []
  | .reqError msg =>
      if invalidParams msg then .ok (fallback_fetch fb) else .ok []
  | .badBody => .error ()
  | .okJson resp =>
      match resp.errorEnv with
      | some (code, msg) =>
          if decide (code = 400) && pyIn "Invalid query parameters" msg then
            .ok (fallback_fetch fb)
          else .ok []
      | none => .ok resp.features

/-! ## Normalization (the new_feats comprehension in main) -/

/-- The condition of the comprehension at line 522 of the source:
`attributes.get("ESRI_OID") and attributes["ESRI_OID"] > last_id`; a missing
or zero id is falsy and excluded. -/
def oidGt (last_id : Int) (f : Attrs) : Bool :=
  match f.ESRI_OID with
  | none => false
  | some v => v != 0 && last_id < v

/-- new_feats: filter the fetched batch down to the records with a truthy id
above the watermark, preserving arrival order. -/
def new_feats_of (feats : List Attrs) (last_id : Int) : List Attrs :=
  feats.filter (oidGt last_id)

/-! ## Processing and selection (the priorization block in main) -/

/-- One entry of all_processed_new_feats: the object id, the Gemini-assigned
relevance and the timestamp returned by format_intervention_with_gemini
(the rendered message text is a function of this record). -/
structure ProcessedFeat where
  object_id : Option Int
  relevance : Int
  timestamp : Int
deriving Repr, DecidableEq

/-- Build one processed entry; relOf is the external Gemini relevance. -/
def process_feat (relOf : Attrs → Int) (f : Attrs) : ProcessedFeat :=
  { object_id := f.ESRI_OID
    relevance := relOf f
    timestamp := f.ACT_DAT_ACTUACIO_MS }

/-- Comparison used by the first in-place sort: keep p before q exactly when
p.timestamp is not below q.timestamp (descending, ties keep input order). -/
def tsGe (p q : ProcessedFeat) : Bool :=
  decide (q.timestamp ≤ p.timestamp)

/-- Stable insertion of p into a list: p goes in front of the first element
it is not ge-above, so among ge-equivalent elements the one inserted last
(which arrived earlier in the input) stays first. -/
def insertStable {α : Type} (ge : α → α → Bool) (p : α) :
    List α → List α
  | [] => [p]
  | q :: qs => if ge p q then p :: q :: qs else q :: insertStable ge p qs

/-- Stable insertion sort: the embedding of Python list.sort with a key and
reverse=True.  A stable sort of a list under a total preorder is unique, so
this insertion sort and timsort agree extensionally. -/
def sortStable {α : Type} (ge : α → α → Bool) : List α → List α
  | [] => []
  | p :: ps => insertStable ge p (sortStable ge ps)

/-- The first in-place sort: all_processed_new_feats.sort(key=timestamp,
reverse=True). -/
def sortTs : List ProcessedFeat → List ProcessedFeat := sortStable tsGe

/-- Comparison used by the second in-place sort: descending lexicographic on
the (relevance, timestamp) key, ties keep input order. -/
def relKeyGe (p q : ProcessedFeat) : Bool :=
  decide (q.relevance < p.relevance ∨
          (p.relevance = q.relevance ∧ q.timestamp ≤ p.timestamp))

/-- The second in-place sort: sort(key=(relevance, timestamp), reverse=True). -/
def sortRel : List ProcessedFeat → List ProcessedFeat := sortStable relKeyGe

/-- MIN_DOTACIONS with its default env value "3" (unused by main's selection
logic; kept because the spec's threshold claims refer to it). -/
def MIN_DOTACIONS : Int := 3

/-- MIN_RELEVANCE_FOR_IMPORTANT from main. -/
def MIN_RELEVANCE_FOR_IMPORTANT : Int := 7

/-- MAX_TOTAL_MESSAGES_PER_RUN from main. -/
def MAX_TOTAL_MESSAGES_PER_RUN : Nat := 3

/-- The selection block of main: sort the processed records by timestamp
descending, always queue the first, then queue the important ones (relevance
at least 7, object id not already queued) in descending (relevance,
timestamp) order while the total stays below MAX_TOTAL_MESSAGES_PER_RUN. -/
def select_messages (procs : List ProcessedFeat) : List ProcessedFeat :=
  match sortTs procs with
  | [] => []
  | most :: rest =>
      let important := (most :: rest).filter fun inc =>
        decide (MIN_RELEVANCE_FOR_IMPORTANT ≤ inc.relevance) &&
        decide (inc.object_id ≠ most.object_id)
      most :: (sortRel important).take (MAX_TOTAL_MESSAGES_PER_RUN - 1)

/-! ## The whole run (main) -/

/-- Observable result of one run: the process exit code, the state file at
exit, and the queued messages identified by their processed records. -/
structure RunResult where
  exitCode : Nat
  store : StateStore
  sent : List ProcessedFeat
deriving Repr, DecidableEq

/-- The truthy-id projection of the watermark-update generator at line 594. -/
def truthyOidVal (f : Attrs) : Option Int :=
  match f.ESRI_OID with
  | none => none
  | some v => if v = 0 then none else some v

/-- The body of main after fetch_features returned feats: early return on an
empty batch or no new records, otherwise select, send and save the maximum of
last_id and the truthy ids of the new records. -/
def process_and_send (feats : List Attrs) (st : StateStore)
    (relOf : Attrs → Int) : RunResult :=
  let last_id := load_state st
  if feats.isEmpty then ⟨0, st, []⟩
  else
    let nf := new_feats_of feats last_id
    if nf.isEmpty then ⟨0, st, []⟩
    else
      let procs := nf.map (process_feat relOf)
      let msgs := select_messages procs
      let oids := nf.filterMap truthyOidVal
      ⟨0, save_state (oids.foldl max last_id) st, msgs⟩

/-- main from the source: load the watermark, fetch (an uncaught exception
exits nonzero with the state untouched), then process and send. -/
def main_run (o fb : FetchOutcome) (st : StateStore)
    (relOf : Attrs → Int) : RunResult :=
  match fetch_features o fb with
  | .error _ => ⟨1, st, []⟩
  | .ok feats => process_and_send feats st relOf

/-! ## Spec-side definitions, for refinement comparison only -/

/-- Modelled from the spec: phase is empty or equals actiu case-insensitively
(section 4.3, most-relevant-active candidate condition). -/
def phase_ok (f : Attrs) : Bool :=
  decide (f.COM_FASE = "") || decide (pyLower f.COM_FASE = "actiu")

/-- Modelled from the spec: the ranking tuple (minus vehicleCount,
hazardPriority, minus timestamp); tipo_val already orders Forestal (1) below
Agricultural (2) below Urban (3) as the spec's hazardPriority requires. -/
def specKey (f : Attrs) : Int × Int × Int :=
  (-f.ACT_NUM_VEH, tipo_val f, -f.ACT_DAT_ACTUACIO_MS)

/-- Strict lexicographic order on spec ranking tuples. -/
def keyLt (a b : Int × Int × Int) : Bool :=
  decide (a.1 < b.1 ∨
          (a.1 = b.1 ∧ (a.2.1 < b.2.1 ∨ (a.2.1 = b.2.1 ∧ a.2.2 < b.2.2))))

/-- Modelled from the spec: the most-relevant-active pick of section 4.3 -
among the new records whose phase is empty or actiu and whose vehicle count
reaches the threshold, the record minimizing specKey. -/
def spec_most_relevant_active (nf : List Attrs) (thr : Int) : Option Attrs :=
  let cands := nf.filter fun f => phase_ok f && decide (thr ≤ f.ACT_NUM_VEH)
  cands.foldl
    (fun acc f =>
      match acc with
      | none => some f
      | some g => if keyLt (specKey f) (specKey g) then some f else some g)
    none

/-- Modelled from the spec: the arrival-first maximum-timestamp record among
the processed records; used to state what the first queued message is. -/
def firstMaxTs : List ProcessedFeat → Option ProcessedFeat
  | [] => none
  | p :: ps =>
      match firstMaxTs ps with
      | none => some p
      | some q => if tsGe p q then some p else some q

/-! ## Lemmas about the stable sort -/

theorem insertStable_perm {α : Type} (ge : α → α → Bool) (p : α)
    (l : List α) : (insertStable ge p l).Perm (p :: l) := by
  induction l with
  | nil => exact List.Perm.refl _
  | cons q qs ih =>
    by_cases h : ge p q = true
    · simp only [insertStable, if_pos h]
      exact List.Perm.refl _
    · simp only [insertStable, if_neg h]
      exact (ih.cons q).trans (List.Perm.swap p q qs)

theorem sortStable_perm {α : Type} (ge : α → α → Bool) (l : List α) :
    (sortStable ge l).Perm l := by
  induction l with
  | nil => exact List.Perm.refl _
  | cons p ps ih =>
    exact (insertStable_perm ge p (sortStable ge ps)).trans (ih.cons p)

theorem sortStable_eq_nil {α : Type} (ge : α → α → Bool) (l : List α) :
    sortStable ge l = [] ↔ l = [] := by
  constructor
  · intro h
    have hp := sortStable_perm ge l
    rw [h] at hp
    exact hp.symm.eq_nil
  · intro h
    subst h
    rfl

theorem insertStable_head {α : Type} (ge : α → α → Bool) (p : α)
    (l : List α) : (insertStable ge p l).head? =
      some (match l with | [] => p | q :: _ => if ge p q then p else q) := by
  cases l with
  | nil => rfl
  | cons q qs =>
    by_cases h : ge p q = true
    · simp [insertStable, h]
    · simp [insertStable, h]

theorem sortStable_head_ge {α : Type} (ge : α → α → Bool)
    (htot : ∀ a b, ge a b = true ∨ ge b a = true)
    (htrans : ∀ a b c, ge a b = true → ge b c = true → ge a c = true)
    (l : List α) : ∀ (h : α), (sortStable ge l).head? = some h →
      ∀ x ∈ l, ge h x = true := by
  induction l with
  | nil =>
    intro h hh x hx
    cases hx
  | cons p ps ih =>
    intro h hh x hx
    have hsort : sortStable ge (p :: ps) = insertStable ge p (sortStable ge ps) := rfl
    rw [hsort, insertStable_head] at hh
    cases hsp : sortStable ge ps with
    | nil =>
      rw [hsp] at hh
      injection hh with heq
      have hps : ps = [] := (sortStable_eq_nil ge ps).mp hsp
      subst hps
      rcases List.mem_cons.mp hx with h1 | h1
      · subst h1
        rw [← heq]
        exact (htot x x).elim id id
      · cases h1
    | cons q rest =>
      rw [hsp] at hh
      injection hh with heq
      have heq2 : (if ge p q = true then p else q) = h := heq
      have hq : ∀ y ∈ ps, ge q y = true := by
        intro y hy
        exact ih q (by rw [hsp]; rfl) y hy
      by_cases hpq : ge p q = true
      · rw [if_pos hpq] at heq2
        rw [← heq2]
        rcases List.mem_cons.mp hx with h1 | h1
        · subst h1
          exact (htot _ _).elim id id
        · exact htrans _ _ _ hpq (hq x h1)
      · rw [if_neg hpq] at heq2
        rw [← heq2]
        have hqp : ge q p = true := (htot p q).resolve_left hpq
        rcases List.mem_cons.mp hx with h1 | h1
        · subst h1
          exact hqp
        · exact hq x h1

/-! ## Lemmas about the two comparison functions -/

theorem relKeyGe_total (p q : ProcessedFeat) :
    relKeyGe p q = true ∨ relKeyGe q p = true := by
  simp only [relKeyGe, decide_eq_true_eq]
  omega

theorem relKeyGe_trans (p q r : ProcessedFeat) (h1 : relKeyGe p q = true)
    (h2 : relKeyGe q r = true) : relKeyGe p r = true := by
  simp only [relKeyGe, decide_eq_true_eq] at h1 h2 ⊢
  omega

/-! ## Lemmas about firstMaxTs -/

theorem firstMaxTs_eq_none (l : List ProcessedFeat) :
    firstMaxTs l = none ↔ l = [] := by
  cases l with
  | nil => simp [firstMaxTs]
  | cons p ps =>
    simp only [firstMaxTs]
    cases h : firstMaxTs ps with
    | none => simp
    | some q => by_cases htq : tsGe p q = true <;> simp [htq]

theorem firstMaxTs_mem (l : List ProcessedFeat) :
    ∀ m, firstMaxTs l = some m → m ∈ l := by
  induction l with
  | nil =>
    intro m hm
    simp [firstMaxTs] at hm
  | cons p ps ih =>
    intro m hm
    simp only [firstMaxTs] at hm
    cases h : firstMaxTs ps with
    | none =>
      rw [h] at hm
      have hm2 : some p = some m := hm
      injection hm2 with hm2
      exact List.mem_cons.mpr (Or.inl hm2.symm)
    | some q =>
      rw [h] at hm
      have hm2 : (if tsGe p q = true then some p else some q) = some m := hm
      by_cases htq : tsGe p q = true
      · rw [if_pos htq] at hm2
        injection hm2 with hm2
        exact List.mem_cons.mpr (Or.inl hm2.symm)
      · rw [if_neg htq] at hm2
        injection hm2 with hm2
        exact List.mem_cons.mpr (Or.inr (hm2 ▸ ih q h))

theorem firstMaxTs_max (l : List ProcessedFeat) :
    ∀ m, firstMaxTs l = some m → ∀ p ∈ l, p.timestamp ≤ m.timestamp := by
  induction l with
  | nil =>
    intro m hm
    simp [firstMaxTs] at hm
  | cons p ps ih =>
    intro m hm x hx
    simp only [firstMaxTs] at hm
    cases h : firstMaxTs ps with
    | none =>
      rw [h] at hm
      have hm2 : some p = some m := hm
      injection hm2 with hm2
      have hps : ps = [] := (firstMaxTs_eq_none ps).mp h
      subst hps
      rcases List.mem_cons.mp hx with h1 | h1
      · subst h1
        rw [← hm2]
      · cases h1
    | some q =>
      rw [h] at hm
      have hm2 : (if tsGe p q = true then some p else some q) = some m := hm
      have hq := ih q h
      by_cases htq : tsGe p q = true
      · rw [if_pos htq] at hm2
        injection hm2 with hm2
        subst hm2
        have hqp : q.timestamp ≤ p.timestamp := by
          simpa [tsGe] using htq
        rcases List.mem_cons.mp hx with h1 | h1
        · subst h1
          exact le_refl _
        · exact le_trans (hq x h1) hqp
      · rw [if_neg htq] at hm2
        injection hm2 with hm2
        subst hm2
        have hpq : p.timestamp ≤ q.timestamp := by
          simp only [tsGe, decide_eq_true_eq] at htq
          omega
        rcases List.mem_cons.mp hx with h1 | h1
        · subst h1
          exact hpq
        · exact hq x h1

theorem sortTs_head (l : List ProcessedFeat) :
    (sortTs l).head? = firstMaxTs l := by
  induction l with
  | nil => rfl
  | cons p ps ih =>
    have hsort : sortTs (p :: ps) = insertStable tsGe p (sortTs ps) := rfl
    rw [hsort, insertStable_head]
    cases hsp : sortTs ps with
    | nil =>
      have hnone : firstMaxTs ps = none := by rw [← ih, hsp]; rfl
      show some p = firstMaxTs (p :: ps)
      simp [firstMaxTs, hnone]
    | cons q rest =>
      have hsome : firstMaxTs ps = some q := by rw [← ih, hsp]; rfl
      show some (if tsGe p q = true then p else q) = firstMaxTs (p :: ps)
      simp only [firstMaxTs, hsome]
      by_cases htq : tsGe p q = true <;> simp [htq]

/-! ## Lemmas about select_messages -/

theorem select_messages_eq (procs : List ProcessedFeat) (most : ProcessedFeat)
    (rest : List ProcessedFeat) (h : sortTs procs = most :: rest) :
    select_messages procs =
      most :: (sortRel ((most :: rest).filter fun inc =>
        decide (MIN_RELEVANCE_FOR_IMPORTANT ≤ inc.relevance) &&
        decide (inc.object_id ≠ most.object_id))).take
          (MAX_TOTAL_MESSAGES_PER_RUN - 1) := by
  unfold select_messages
  rw [h]

theorem select_messages_nil_of (procs : List ProcessedFeat)
    (h : sortTs procs = []) : select_messages procs = [] := by
  unfold select_messages
  rw [h]

theorem select_messages_mem (procs : List ProcessedFeat) (m : ProcessedFeat)
    (hm : m ∈ select_messages procs) : m ∈ procs := by
  cases hs : sortTs procs with
  | nil =>
    rw [select_messages_nil_of procs hs] at hm
    cases hm
  | cons most rest =>
    rw [select_messages_eq procs most rest hs] at hm
    rcases List.mem_cons.mp hm with h1 | h1
    · subst h1
      have hmem : m ∈ sortTs procs := by
        rw [hs]
        exact List.mem_cons_self _ _
      exact (sortStable_perm tsGe procs).mem_iff.mp hmem
    · have h2 := List.take_subset _ _ h1
      have h3 := (sortStable_perm relKeyGe _).mem_iff.mp h2
      have h4 := List.mem_of_mem_filter h3
      have h5 : m ∈ sortTs procs := by
        rw [hs]
        exact h4
      exact (sortStable_perm tsGe procs).mem_iff.mp h5

theorem select_messages_length_le (procs : List ProcessedFeat) :
    (select_messages procs).length ≤ MAX_TOTAL_MESSAGES_PER_RUN := by
  cases hs : sortTs procs with
  | nil =>
    rw [select_messages_nil_of procs hs]
    simp [MAX_TOTAL_MESSAGES_PER_RUN]
  | cons most rest =>
    rw [select_messages_eq procs most rest hs]
    have ht := List.length_take_le (MAX_TOTAL_MESSAGES_PER_RUN - 1)
      (sortRel ((most :: rest).filter fun inc =>
        decide (MIN_RELEVANCE_FOR_IMPORTANT ≤ inc.relevance) &&
        decide (inc.object_id ≠ most.object_id)))
    simp only [List.length_cons, MAX_TOTAL_MESSAGES_PER_RUN] at ht ⊢
    omega

theorem select_messages_head (procs : List ProcessedFeat) :
    (select_messages procs).head? = firstMaxTs procs := by
  cases hs : sortTs procs with
  | nil =>
    rw [select_messages_nil_of procs hs]
    have h0 : firstMaxTs procs = none := by rw [← sortTs_head, hs]; rfl
    simp [h0]
  | cons most rest =>
    rw [select_messages_eq procs most rest hs]
    have h0 : firstMaxTs procs = some most := by rw [← sortTs_head, hs]; rfl
    simp [h0]

/-! ## Lemmas about List.foldl max -/

theorem foldl_max_init_le (l : List Int) : ∀ init : Int,
    init ≤ l.foldl max init := by
  induction l with
  | nil =>
    intro init
    exact le_refl _
  | cons v vs ih =>
    intro init
    calc init ≤ max init v := le_max_left _ _
    _ ≤ vs.foldl max (max init v) := ih (max init v)

theorem foldl_max_le_of_mem (l : List Int) : ∀ (init v : Int), v ∈ l →
    v ≤ l.foldl max init := by
  induction l with
  | nil =>
    intro init v hv
    cases hv
  | cons u us ih =>
    intro init v hv
    rcases List.mem_cons.mp hv with h | h
    · subst h
      exact le_trans (le_max_right init v) (foldl_max_init_le us (max init v))
    · exact ih (max init u) v h

theorem foldl_max_mem (l : List Int) : ∀ init : Int,
    l.foldl max init = init ∨ l.foldl max init ∈ l := by
  induction l with
  | nil =>
    intro init
    exact Or.inl rfl
  | cons u us ih =>
    intro init
    rcases ih (max init u) with h | h
    · rcases max_choice init u with h2 | h2
      · exact Or.inl (by show us.foldl max (max init u) = init; rw [h, h2])
      · refine Or.inr ?_
        show us.foldl max (max init u) ∈ u :: us
        rw [h, h2]
        exact List.mem_cons_self _ _
    · exact Or.inr (List.mem_cons_of_mem u h)

/-! ## Lemmas about normalization and the watermark update -/

theorem oidGt_iff (last_id : Int) (f : Attrs) :
    oidGt last_id f = true ↔
      ∃ v, f.ESRI_OID = some v ∧ v ≠ 0 ∧ last_id < v := by
  cases ho : f.ESRI_OID with
  | none => simp [oidGt, ho]
  | some v => simp [oidGt, ho, and_assoc]

theorem mem_new_feats (feats : List Attrs) (last_id : Int) (f : Attrs) :
    f ∈ new_feats_of feats last_id ↔ f ∈ feats ∧ oidGt last_id f = true :=
  List.mem_filter

theorem truthyOidVal_eq_some (f : Attrs) (v : Int) :
    truthyOidVal f = some v ↔ f.ESRI_OID = some v ∧ v ≠ 0 := by
  cases ho : f.ESRI_OID with
  | none => simp [truthyOidVal, ho]
  | some w =>
    by_cases hw : w = 0
    · simp [truthyOidVal, ho, hw]
      intro hv
      omega
    · simp only [truthyOidVal, ho, if_neg hw, Option.some.injEq]
      constructor
      · intro hv
        subst hv
        exact ⟨rfl, hw⟩
      · rintro ⟨hv, _⟩
        exact hv

/-! ## Lemmas about process_and_send and main_run -/

theorem process_and_send_of_new (feats : List Attrs) (st : StateStore)
    (relOf : Attrs → Int) (h : new_feats_of feats (load_state st) ≠ []) :
    process_and_send feats st relOf =
      ⟨0,
       save_state
         (((new_feats_of feats (load_state st)).filterMap truthyOidVal).foldl
           max (load_state st)) st,
       select_messages
         ((new_feats_of feats (load_state st)).map (process_feat relOf))⟩ := by
  have hfe : feats.isEmpty = false := by
    cases feats with
    | nil => exact absurd rfl h
    | cons a l => rfl
  have hnfe : (new_feats_of feats (load_state st)).isEmpty = false := by
    cases hnf : new_feats_of feats (load_state st) with
    | nil => exact absurd hnf h
    | cons a l => rfl
  simp [process_and_send, hfe, hnfe]

theorem process_and_send_store_mono (feats : List Attrs) (st : StateStore)
    (relOf : Attrs → Int) :
    load_state st ≤ load_state (process_and_send feats st relOf).store := by
  by_cases h : new_feats_of feats (load_state st) = []
  · unfold process_and_send
    by_cases hf : feats.isEmpty
    · simp [hf]
    · simp [hf, h]
  · rw [process_and_send_of_new feats st relOf h]
    exact foldl_max_init_le _ _

theorem main_run_okJson_none (resp : ArcResponse) (fb : FetchOutcome)
    (st : StateStore) (relOf : Attrs → Int) (hresp : resp.errorEnv = none) :
    main_run (.okJson resp) fb st relOf =
      process_and_send resp.features st relOf := by
  simp only [main_run, fetch_features, hresp]

/-! ## Claim C4: normalization -/

/-- C4, counterexample: the claim says normalization returns exactly the
records with id greater than lastId; but a record with id 0 is dropped even
though 0 exceeds the sentinel watermark -1, because Python truthiness
excludes a zero ESRI_OID. -/
theorem c4_counterexample :
    new_feats_of [⟨some 0, 1, "", 100, "", ""⟩] (-1) = [] ∧
    ((-1 : Int) < 0) := ⟨by decide, by decide⟩

/-- C4, amended: normalization returns exactly the records whose id is
present, nonzero and greater than lastId, and it preserves the relative
order of the survivors (the result is a sublist of the input). -/
theorem c4_amended_normalize (feats : List Attrs) (last_id : Int) :
    (new_feats_of feats last_id).Sublist feats ∧
    ∀ f, f ∈ new_feats_of feats last_id ↔
      (f ∈ feats ∧ ∃ v, f.ESRI_OID = some v ∧ v ≠ 0 ∧ last_id < v) := by
  constructor
  · exact List.filter_sublist feats
  · intro f
    rw [mem_new_feats, oidGt_iff]

/-! ## Claim C5: classification -/

/-- C5, counterexample: the claim says the no-keyword default is Forestal and
that the unaccented variants agricola and vegetacion are matched; the code
classifies all of these as urban. -/
theorem c5_counterexample :
    classify ⟨none, 0, "", 0, "", ""⟩ = "urbà" ∧
    classify ⟨none, 0, "", 0, "", ""⟩ ≠ "forestal" ∧
    classify ⟨none, 0, "", 0, "agricola", ""⟩ = "urbà" ∧
    classify ⟨none, 0, "", 0, "vegetacion", ""⟩ = "urbà" :=
  ⟨by decide, by decide, by decide, by decide⟩

/-- C5, amended: classify lowercases the space-joined concatenation of the
two alarm texts and applies the ordered substring rules urbà/urbana to urban,
else agrí to agricultural, else forestal/vegetació to forestal, defaulting to
urban (not forestal) when nothing matches; the unaccented variants urbano,
agricola, vegetacion are not checked. -/
theorem c5_amended_classify (a : Attrs) :
    (classify a = "forestal" ∨ classify a = "agrícola" ∨ classify a = "urbà") ∧
    ((pyIn "urbà" (alarm_text a) = true ∨ pyIn "urbana" (alarm_text a) = true) →
      classify a = "urbà") ∧
    (pyIn "urbà" (alarm_text a) = false → pyIn "urbana" (alarm_text a) = false →
      pyIn "agrí" (alarm_text a) = true → classify a = "agrícola") ∧
    (pyIn "urbà" (alarm_text a) = false → pyIn "urbana" (alarm_text a) = false →
      pyIn "agrí" (alarm_text a) = false →
      (pyIn "forestal" (alarm_text a) = true ∨
        pyIn "vegetació" (alarm_text a) = true) →
      classify a = "forestal") ∧
    (pyIn "urbà" (alarm_text a) = false → pyIn "urbana" (alarm_text a) = false →
      pyIn "agrí" (alarm_text a) = false → pyIn "forestal" (alarm_text a) = false →
      pyIn "vegetació" (alarm_text a) = false → classify a = "urbà") := by
  refine ⟨?_, ?_, ?_, ?_, ?_⟩
  · unfold classify
    split_ifs <;> simp
  · intro h
    rcases h with h | h <;> simp [classify, tipo_val, h]
  · intro h1 h2 h3
    simp [classify, tipo_val, h1, h2, h3]
  · intro h1 h2 h3 h4
    rcases h4 with h4 | h4 <;> simp [classify, tipo_val, h1, h2, h3, h4]
  · intro h1 h2 h3 h4 h5
    simp [classify, tipo_val, h1, h2, h3, h4, h5]

/-- C5 witness: the amended rule applied at a concrete urban alarm text. -/
theorem c5_amended_classify_witness :
    classify ⟨none, 0, "", 0, "Incendi urbà", ""⟩ = "urbà" :=
  (c5_amended_classify ⟨none, 0, "", 0, "Incendi urbà", ""⟩).2.1
    (Or.inl (by decide))

/-! ## Claim C7: watermark round-trip -/

/-- C7: saving the watermark and loading it back returns the saved value for
every nonnegative integer, and loading a never-initialized store returns the
sentinel -1. -/
theorem c7_roundtrip (n : Int) (st : StateStore) (hn : 0 ≤ n) :
    load_state (save_state n st) = n ∧ load_state none = -1 :=
  ⟨rfl, rfl⟩

/-- C7 witness at the concrete value 42. -/
theorem c7_roundtrip_witness :
    load_state (save_state 42 none) = 42 ∧ load_state none = -1 :=
  c7_roundtrip 42 none (by decide)

/-! ## Claim C2: number of messages per run -/

/-- C2, counterexample: the claim says a run sends at most two messages; with
three new records all given relevance 9 the run queues three messages. -/
theorem c2_counterexample :
    (main_run (.okJson ⟨none,
        [⟨some 1, 0, "", 300, "", ""⟩, ⟨some 2, 0, "", 200, "", ""⟩,
         ⟨some 3, 0, "", 100, "", ""⟩]⟩)
      .timeout none (fun _ => 9)).sent.length = 3 := by decide

/-- C2, amended: every run sends at most MAX_TOTAL_MESSAGES_PER_RUN = 3
messages (the most recent new record plus at most two important ones). -/
theorem c2_amended_at_most_three (o fb : FetchOutcome) (st : StateStore)
    (relOf : Attrs → Int) :
    (main_run o fb st relOf).sent.length ≤ MAX_TOTAL_MESSAGES_PER_RUN := by
  have hps : ∀ feats, (process_and_send feats st relOf).sent.length ≤
      MAX_TOTAL_MESSAGES_PER_RUN := by
    intro feats
    unfold process_and_send
    by_cases h1 : feats.isEmpty
    · simp [h1, MAX_TOTAL_MESSAGES_PER_RUN]
    · by_cases h2 : (new_feats_of feats (load_state st)).isEmpty
      · simp [h1, h2, MAX_TOTAL_MESSAGES_PER_RUN]
      · simp only [h1, h2, Bool.false_eq_true, if_false, if_neg]
        exact select_messages_length_le _
  unfold main_run
  cases hf : fetch_features o fb with
  | error e => exact Nat.zero_le _
  | ok feats => exact hps feats

/-! ## Claim C8: behavior when the fetch fails -/

/-- C8, counterexample: the claim says a failed fetch makes the process exit
nonzero; on a timeout the run returns exit code 0 (the failure is swallowed
into an empty batch), with the watermark unchanged. -/
theorem c8_counterexample :
    main_run .timeout .timeout none (fun _ => 0) = ⟨0, none, []⟩ := by decide

/-- C8, amended: when the fetch is swallowed into an empty batch (timeouts,
connection and HTTP errors, error envelopes), the run aborts with the
watermark unchanged, no messages, and exit code 0; only the uncaught path (a
200 response whose body fails to parse as JSON) exits nonzero, also with the
watermark unchanged. -/
theorem c8_amended_failure_behavior (o fb : FetchOutcome) (st : StateStore)
    (relOf : Attrs → Int) :
    (fetch_features o fb = .ok [] → main_run o fb st relOf = ⟨0, st, []⟩) ∧
    (fetch_features o fb = .error () → main_run o fb st relOf = ⟨1, st, []⟩) := by
  constructor
  · intro h
    unfold main_run
    rw [h]
    rfl
  · intro h
    unfold main_run
    rw [h]

/-- C8 witness: the unparseable-body path exits nonzero with the state
untouched. -/
theorem c8_amended_failure_behavior_witness :
    main_run .badBody .timeout none (fun _ => 0) = ⟨1, none, []⟩ :=
  (c8_amended_failure_behavior .badBody .timeout none (fun _ => 0)).2 rfl

/-! ## Claim C9: records with missing or zero id -/

/-- C9: a record whose ESRI_OID is missing or zero is dropped by
normalization for every watermark (including the sentinel -1), and every
queued message carries a present, nonzero object id above the watermark. -/
theorem c9_dropped_ids :
    (∀ (feats : List Attrs) (last_id : Int) (f : Attrs),
      (f.ESRI_OID = none ∨ f.ESRI_OID = some 0) →
        f ∉ new_feats_of feats last_id) ∧
    (∀ (o fb : FetchOutcome) (st : StateStore) (relOf : Attrs → Int),
      ∀ m ∈ (main_run o fb st relOf).sent,
        ∃ v, m.object_id = some v ∧ v ≠ 0 ∧ load_state st < v) := by
  constructor
  · intro feats last_id f hf hmem
    have hogt := ((mem_new_feats feats last_id f).mp hmem).2
    rcases (oidGt_iff last_id f).mp hogt with ⟨v, hv, hvne, _⟩
    rcases hf with h | h <;> rw [h] at hv
    · exact Option.noConfusion hv
    · injection hv with hv
      exact hvne hv.symm
  · intro o fb st relOf m
    unfold main_run
    cases hf : fetch_features o fb with
    | error e =>
      intro hm
      cases hm
    | ok feats =>
      intro hm
      have hm2 : m ∈ (process_and_send feats st relOf).sent := hm
      by_cases h : new_feats_of feats (load_state st) = []
      · unfold process_and_send at hm2
        by_cases hfe : feats.isEmpty
        · simp [hfe] at hm2
        · simp [hfe, h] at hm2
      · rw [process_and_send_of_new feats st relOf h] at hm2
        have hmem := select_messages_mem _ m hm2
        obtain ⟨f, hfnf, hfm⟩ := List.mem_map.mp hmem
        have hogt := ((mem_new_feats _ _ f).mp hfnf).2
        obtain ⟨v, hv, hvne, hvgt⟩ := (oidGt_iff _ f).mp hogt
        refine ⟨v, ?_, hvne, hvgt⟩
        rw [← hfm]
        exact hv

/-- C9 witness: a record with id 0 is not a new record even for the sentinel
watermark -1. -/
theorem c9_dropped_ids_witness :
    (⟨some 0, 2, "", 5, "", ""⟩ : Attrs) ∉
      new_feats_of [⟨some 0, 2, "", 5, "", ""⟩, ⟨some 3, 1, "", 7, "", ""⟩]
        (-1) :=
  c9_dropped_ids.1 [⟨some 0, 2, "", 5, "", ""⟩, ⟨some 3, 1, "", 7, "", ""⟩]
    (-1) ⟨some 0, 2, "", 5, "", ""⟩ (Or.inr rfl)

/-! ## Claim C10: totality of fetch_features -/

/-- C10, counterexample: the claim says every error payload yields the empty
list; a 400 Invalid-query-parameters envelope instead triggers the
reduced-fields fallback request, whose (non-empty) features are returned. -/
theorem c10_counterexample :
    fetch_features (.okJson ⟨some (400, "Invalid query parameters"), []⟩)
        (.okJson ⟨none, [⟨some 7, 2, "", 50, "", ""⟩]⟩) =
      .ok [⟨some 7, 2, "", 50, "", ""⟩] ∧
    (Except.ok [(⟨some 7, 2, "", 50, "", ""⟩ : Attrs)] :
        Except Unit (List Attrs)) ≠ .ok [] := by
  constructor
  · rfl
  · intro h
    injection h with h
    exact List.noConfusion h

/-- C10, amended: timeouts, connection and HTTP errors whose text is not a
400 Invalid-query-parameters error, and error envelopes other than that one,
all return the empty list without raising; the 400 Invalid-query-parameters
cases return the fallback request's result instead; and whenever the result
is the empty list the run ends with exit code 0, no messages and the
watermark unchanged, indistinguishable from a successful fetch of zero
records. -/
theorem c10_amended_fetch_total (fb : FetchOutcome) :
    fetch_features .timeout fb = .ok [] ∧
    (∀ msg, invalidParams msg = false →
      fetch_features (.reqError msg) fb = .ok []) ∧
    (∀ msg, invalidParams msg = true →
      fetch_features (.reqError msg) fb = .ok (fallback_fetch fb)) ∧
    (∀ code msg feats,
      (code ≠ 400 ∨ pyIn "Invalid query parameters" msg = false) →
      fetch_features (.okJson ⟨some (code, msg), feats⟩) fb = .ok []) ∧
    (∀ (st : StateStore) (relOf : Attrs → Int) (o : FetchOutcome),
      fetch_features o fb = .ok [] →
        main_run o fb st relOf = ⟨0, st, []⟩) := by
  refine ⟨rfl, ?_, ?_, ?_, ?_⟩
  · intro msg h
    simp [fetch_features, h]
  · intro msg h
    simp [fetch_features, h]
  · intro code msg feats h
    have hcond : (decide (code = 400) && pyIn "Invalid query parameters" msg)
        = false := by
      rcases h with h | h
      · simp [h]
      · simp [h]
    simp [fetch_features, hcond]
  · intro st relOf o h
    unfold main_run
    rw [h]
    rfl

/-- C10 witness: concrete swallowed failures and the call-site behavior. -/
theorem c10_amended_fetch_total_witness :
    fetch_features (.reqError "connection reset") .timeout = .ok [] ∧
    fetch_features (.okJson ⟨some (499, "oops"), []⟩) .timeout = .ok [] ∧
    main_run .timeout .timeout (some (some 7)) (fun _ => 0) =
      ⟨0, some (some 7), []⟩ :=
  ⟨(c10_amended_fetch_total .timeout).2.1 "connection reset" (by decide),
   (c10_amended_fetch_total .timeout).2.2.2.1 499 "oops" [] (Or.inl (by decide)),
   (c10_amended_fetch_total .timeout).2.2.2.2 (some (some 7)) (fun _ => 0)
     .timeout rfl⟩

/-! ## Claim C3: the first reported record -/

/-- C3, counterexample: the claim breaks timestamp ties by maximum id; on two
records sharing a timestamp, arriving with the smaller id first, the code
selects and renders the id-5 record and never selects the id-9 one. -/
theorem c3_counterexample :
    (main_run (.okJson ⟨none,
        [⟨some 5, 0, "", 100, "", ""⟩, ⟨some 9, 0, "", 100, "", ""⟩]⟩)
      .timeout none (fun _ => 0)).sent = [⟨some 5, 0, 100⟩] ∧
    (⟨some 5, 0, "", 100, "", ""⟩ : Attrs).ACT_DAT_ACTUACIO_MS =
      (⟨some 9, 0, "", 100, "", ""⟩ : Attrs).ACT_DAT_ACTUACIO_MS :=
  ⟨by decide, rfl⟩

/-- C3, amended: the first queued message of a run is the arrival-first
record of maximum timestamp among the new records (ties keep batch order, not
maximum id), chosen regardless of vehicle count or phase; it is a maximum of
the processed records by timestamp. -/
theorem c3_amended_first_message (resp : ArcResponse) (fb : FetchOutcome)
    (st : StateStore) (relOf : Attrs → Int) (hresp : resp.errorEnv = none) :
    (main_run (.okJson resp) fb st relOf).sent.head? =
      firstMaxTs ((new_feats_of resp.features (load_state st)).map
        (process_feat relOf)) ∧
    ∀ m, firstMaxTs ((new_feats_of resp.features (load_state st)).map
        (process_feat relOf)) = some m →
      m ∈ (new_feats_of resp.features (load_state st)).map (process_feat relOf) ∧
      ∀ p ∈ (new_feats_of resp.features (load_state st)).map (process_feat relOf),
        p.timestamp ≤ m.timestamp := by
  constructor
  · rw [main_run_okJson_none resp fb st relOf hresp]
    by_cases h : new_feats_of resp.features (load_state st) = []
    · have hsent : (process_and_send resp.features st relOf).sent = [] := by
        unfold process_and_send
        by_cases hfe : resp.features.isEmpty
        · simp [hfe]
        · simp [hfe, h]
      rw [hsent, h]
      rfl
    · rw [process_and_send_of_new resp.features st relOf h]
      exact select_messages_head _
  · intro m hm
    exact ⟨firstMaxTs_mem _ m hm, firstMaxTs_max _ m hm⟩

/-- C3 witness at a concrete one-record batch. -/
theorem c3_amended_first_message_witness :
    (main_run (.okJson ⟨none, [⟨some 8, 1, "", 400, "", ""⟩]⟩) .timeout none
        (fun _ => 0)).sent.head? =
      firstMaxTs ((new_feats_of [⟨some 8, 1, "", 400, "", ""⟩]
        (load_state none)).map (process_feat (fun _ => 0))) ∧
    ∀ m, firstMaxTs ((new_feats_of [⟨some 8, 1, "", 400, "", ""⟩]
        (load_state none)).map (process_feat (fun _ => 0))) = some m →
      m ∈ (new_feats_of [⟨some 8, 1, "", 400, "", ""⟩]
        (load_state none)).map (process_feat (fun _ => 0)) ∧
      ∀ p ∈ (new_feats_of [⟨some 8, 1, "", 400, "", ""⟩]
          (load_state none)).map (process_feat (fun _ => 0)),
        p.timestamp ≤ m.timestamp :=
  c3_amended_first_message ⟨none, [⟨some 8, 1, "", 400, "", ""⟩]⟩ .timeout
    none (fun _ => 0) rfl

/-! ## Claim C6: the saved watermark -/

/-- Core fact about the watermark update: over a batch of records that all
pass the truthy-id filter, the folded maximum is the id of some record, it
bounds every record id, and it strictly exceeds the previous watermark. -/
theorem watermark_core (nf : List Attrs) (last_id : Int)
    (hall : ∀ f ∈ nf, oidGt last_id f = true) (hne : nf ≠ []) :
    (∃ f ∈ nf, f.ESRI_OID =
      some ((nf.filterMap truthyOidVal).foldl max last_id)) ∧
    (∀ f ∈ nf, ∀ v, f.ESRI_OID = some v →
      v ≤ (nf.filterMap truthyOidVal).foldl max last_id) ∧
    last_id < (nf.filterMap truthyOidVal).foldl max last_id := by
  have hex : ∃ f, f ∈ nf := by
    cases nf with
    | nil => exact absurd rfl hne
    | cons a l => exact ⟨a, List.mem_cons_self a l⟩
  obtain ⟨f0, hf0⟩ := hex
  obtain ⟨v0, hv0, hv0ne, hv0gt⟩ := (oidGt_iff last_id f0).mp (hall f0 hf0)
  have hv0mem : v0 ∈ nf.filterMap truthyOidVal :=
    List.mem_filterMap.mpr
      ⟨f0, hf0, (truthyOidVal_eq_some f0 v0).mpr ⟨hv0, hv0ne⟩⟩
  have hv0le : v0 ≤ (nf.filterMap truthyOidVal).foldl max last_id :=
    foldl_max_le_of_mem _ last_id v0 hv0mem
  have hlt : last_id < (nf.filterMap truthyOidVal).foldl max last_id :=
    lt_of_lt_of_le hv0gt hv0le
  have hMmem : (nf.filterMap truthyOidVal).foldl max last_id ∈
      nf.filterMap truthyOidVal := by
    rcases foldl_max_mem (nf.filterMap truthyOidVal) last_id with h | h
    · rw [h] at hlt
      exact absurd hlt (lt_irrefl _)
    · exact h
  obtain ⟨fM, hfM, hfMv⟩ := List.mem_filterMap.mp hMmem
  have hfM2 := (truthyOidVal_eq_some fM _).mp hfMv
  refine ⟨⟨fM, hfM, hfM2.1⟩, ?_, hlt⟩
  intro f hf v hv
  obtain ⟨w, hw, hwne, _⟩ := (oidGt_iff last_id f).mp (hall f hf)
  have hvw : v = w := by
    rw [hv] at hw
    exact Option.some.inj hw
  have hvne : v ≠ 0 := by
    rw [hvw]
    exact hwne
  exact foldl_max_le_of_mem _ last_id v
    (List.mem_filterMap.mpr
      ⟨f, hf, (truthyOidVal_eq_some f v).mpr ⟨hv, hvne⟩⟩)

/-- C6: when a run has new records, the watermark it saves is the maximum id
among all new records considered (it is some new record's id and bounds them
all), strictly above the previous watermark; and across every run the
persisted watermark is monotonically non-decreasing. -/
theorem c6_watermark :
    (∀ (resp : ArcResponse) (fb : FetchOutcome) (st : StateStore)
        (relOf : Attrs → Int),
      resp.errorEnv = none →
      new_feats_of resp.features (load_state st) ≠ [] →
        ((∃ f ∈ new_feats_of resp.features (load_state st),
            f.ESRI_OID =
              some (load_state (main_run (.okJson resp) fb st relOf).store)) ∧
         (∀ f ∈ new_feats_of resp.features (load_state st), ∀ v,
            f.ESRI_OID = some v →
              v ≤ load_state (main_run (.okJson resp) fb st relOf).store) ∧
         load_state st <
           load_state (main_run (.okJson resp) fb st relOf).store)) ∧
    (∀ (o fb : FetchOutcome) (st : StateStore) (relOf : Attrs → Int),
      load_state st ≤ load_state (main_run o fb st relOf).store) := by
  constructor
  · intro resp fb st relOf hresp hne
    rw [main_run_okJson_none resp fb st relOf hresp,
        process_and_send_of_new resp.features st relOf hne]
    exact watermark_core (new_feats_of resp.features (load_state st))
      (load_state st) (fun f hf => ((mem_new_feats _ _ f).mp hf).2) hne
  · intro o fb st relOf
    unfold main_run
    cases hf : fetch_features o fb with
    | error e => exact le_refl _
    | ok feats => exact process_and_send_store_mono feats st relOf

/-- C6 witness at a concrete one-record batch starting from the absent
store. -/
theorem c6_watermark_witness :
    (∃ f ∈ new_feats_of [(⟨some 4, 1, "", 10, "", ""⟩ : Attrs)]
        (load_state none),
      f.ESRI_OID = some (load_state (main_run
        (.okJson ⟨none, [⟨some 4, 1, "", 10, "", ""⟩]⟩) .timeout none
        (fun _ => 0)).store)) ∧
    (∀ f ∈ new_feats_of [(⟨some 4, 1, "", 10, "", ""⟩ : Attrs)]
        (load_state none), ∀ v, f.ESRI_OID = some v →
      v ≤ load_state (main_run
        (.okJson ⟨none, [⟨some 4, 1, "", 10, "", ""⟩]⟩) .timeout none
        (fun _ => 0)).store) ∧
    load_state none < load_state (main_run
      (.okJson ⟨none, [⟨some 4, 1, "", 10, "", ""⟩]⟩) .timeout none
      (fun _ => 0)).store :=
  c6_watermark.1 ⟨none, [⟨some 4, 1, "", 10, "", ""⟩]⟩ .timeout none
    (fun _ => 0) rfl (by decide)

/-! ## Claim C1: the records reported after the first -/

/-- C1, counterexample: by the claim's rule the active id-9 record with 8
vehicles (above the threshold 3) must be reported second; the code reports
only one record because both records have Gemini relevance 0. -/
theorem c1_counterexample :
    spec_most_relevant_active
        (new_feats_of
          [⟨some 10, 5, "actiu", 200, "incendi forestal", ""⟩,
           ⟨some 9, 8, "actiu", 100, "incendi forestal", ""⟩]
          (load_state (some (some 5))))
        MIN_DOTACIONS
      = some ⟨some 9, 8, "actiu", 100, "incendi forestal", ""⟩ ∧
    (⟨some 9, 8, "actiu", 100, "incendi forestal", ""⟩ : Attrs).ESRI_OID ≠
      (⟨some 10, 5, "actiu", 200, "incendi forestal", ""⟩ : Attrs).ESRI_OID ∧
    (main_run
        (.okJson ⟨none,
          [⟨some 10, 5, "actiu", 200, "incendi forestal", ""⟩,
           ⟨some 9, 8, "actiu", 100, "incendi forestal", ""⟩]⟩)
        .timeout (some (some 5)) (fun _ => 0)).sent
      = [⟨some 10, 0, 200⟩] :=
  ⟨by decide, by decide, by decide⟩

/-- Characterization of the second queued message: it has relevance at least
MIN_RELEVANCE_FOR_IMPORTANT, its object id differs from the first message's,
and it is a maximum of the qualifying records under the (relevance,
timestamp) order. -/
theorem select_second (procs : List ProcessedFeat) (most s : ProcessedFeat)
    (rest : List ProcessedFeat)
    (hsel : select_messages procs = most :: s :: rest) :
    MIN_RELEVANCE_FOR_IMPORTANT ≤ s.relevance ∧
    s.object_id ≠ most.object_id ∧
    s ∈ procs ∧
    ∀ q ∈ procs, MIN_RELEVANCE_FOR_IMPORTANT ≤ q.relevance →
      q.object_id ≠ most.object_id → relKeyGe s q = true := by
  cases hs : sortTs procs with
  | nil =>
    rw [select_messages_nil_of _ hs] at hsel
    simp at hsel
  | cons most' rest' =>
    rw [select_messages_eq _ most' rest' hs] at hsel
    injection hsel with h1 h2
    rw [← h1]
    set F : ProcessedFeat → Bool := fun inc =>
      decide (MIN_RELEVANCE_FOR_IMPORTANT ≤ inc.relevance) &&
      decide (inc.object_id ≠ most'.object_id) with hF
    cases hsr : sortRel ((most' :: rest').filter F) with
    | nil =>
      rw [hsr] at h2
      simp at h2
    | cons s' r' =>
      rw [hsr] at h2
      have h2' : s' :: r'.take 1 = s :: rest := h2
      injection h2' with h3 h4
      rw [← h3]
      have hhead : (sortRel ((most' :: rest').filter F)).head? = some s' := by
        rw [hsr]
        rfl
      have hmax := sortStable_head_ge relKeyGe relKeyGe_total relKeyGe_trans
        ((most' :: rest').filter F) s' hhead
      have hsmem : s' ∈ (most' :: rest').filter F :=
        (sortStable_perm relKeyGe _).mem_iff.mp
          (by show s' ∈ sortRel ((most' :: rest').filter F)
              rw [hsr]
              exact List.mem_cons_self _ _)
      have hfparts := List.mem_filter.mp hsmem
      have hcond := hfparts.2
      simp only [hF, Bool.and_eq_true, decide_eq_true_eq] at hcond
      have hsproc : s' ∈ procs :=
        (sortStable_perm tsGe _).mem_iff.mp
          (by show s' ∈ sortTs procs
              rw [hs]
              exact hfparts.1)
      refine ⟨hcond.1, hcond.2, hsproc, ?_⟩
      intro q hq hq7 hqo
      have hq1 : q ∈ sortTs procs :=
        (sortStable_perm tsGe _).mem_iff.mpr hq
      rw [hs] at hq1
      have hq2 : q ∈ (most' :: rest').filter F :=
        List.mem_filter.mpr ⟨hq1, by
          simp only [hF, Bool.and_eq_true, decide_eq_true_eq]
          exact ⟨hq7, hqo⟩⟩
      exact hmax q hq2

/-- C1, amended: a record reported second, when present, is chosen among the
new records whose Gemini relevance is at least MIN_RELEVANCE_FOR_IMPORTANT
and whose object id differs from the first (most recent) record's id, as a
maximum under the descending (relevance, timestamp) order; phase, vehicle
count (MIN_DOTACIONS) and hazard class play no role. -/
theorem c1_amended_second_pick (feats : List Attrs) (last_id : Int)
    (relOf : Attrs → Int) (most s : ProcessedFeat)
    (rest : List ProcessedFeat)
    (hsel : select_messages
        ((new_feats_of feats last_id).map (process_feat relOf)) =
      most :: s :: rest) :
    MIN_RELEVANCE_FOR_IMPORTANT ≤ s.relevance ∧
    s.object_id ≠ most.object_id ∧
    s ∈ (new_feats_of feats last_id).map (process_feat relOf) ∧
    ∀ q ∈ (new_feats_of feats last_id).map (process_feat relOf),
      MIN_RELEVANCE_FOR_IMPORTANT ≤ q.relevance →
      q.object_id ≠ most.object_id → relKeyGe s q = true :=
  select_second ((new_feats_of feats last_id).map (process_feat relOf))
    most s rest hsel

/-- C1 witness: a concrete two-record batch where the high-relevance record
is reported second. -/
theorem c1_amended_second_pick_witness :
    MIN_RELEVANCE_FOR_IMPORTANT ≤ (⟨some 2, 9, 100⟩ : ProcessedFeat).relevance ∧
    (⟨some 2, 9, 100⟩ : ProcessedFeat).object_id ≠
      (⟨some 1, 0, 200⟩ : ProcessedFeat).object_id ∧
    (⟨some 2, 9, 100⟩ : ProcessedFeat) ∈
      (new_feats_of [⟨some 1, 0, "", 200, "", ""⟩, ⟨some 2, 9, "", 100, "", ""⟩]
        (-1)).map (process_feat (fun f => f.ACT_NUM_VEH)) ∧
    ∀ q ∈ (new_feats_of
        [⟨some 1, 0, "", 200, "", ""⟩, ⟨some 2, 9, "", 100, "", ""⟩]
        (-1)).map (process_feat (fun f => f.ACT_NUM_VEH)),
      MIN_RELEVANCE_FOR_IMPORTANT ≤ q.relevance →
      q.object_id ≠ (⟨some 1, 0, 200⟩ : ProcessedFeat).object_id →
        relKeyGe ⟨some 2, 9, 100⟩ q = true :=
  c1_amended_second_pick
    [⟨some 1, 0, "", 200, "", ""⟩, ⟨some 2, 9, "", 100, "", ""⟩] (-1)
    (fun f => f.ACT_NUM_VEH) ⟨some 1, 0, 200⟩ ⟨some 2, 9, 100⟩ []
    (by decide)

end BombersBot
